import Mathlib

set_option maxRecDepth 4000

/-!
Verification of the mcbe-addon-ipc protocol engine against its
natural-language specification.

The definitions below are a shallow embedding of the TypeScript sources:
the Router class (listener registry, stream reassembly, invoke
coordination) and the stream chunk splitter.  Strings are modelled as
`List Char`; JavaScript `Map` objects as association lists; the
JavaScript idiom `str.split(/ (.*)/)` (split at the first space, the
capture group stopping at a raw newline) as `jsSplitFirst`; a
synchronous JavaScript exception escaping `routeEvent` as
`Except.error`.
-/

/-- Lookup in an association list keyed by `List Char`, mirroring
JavaScript `Map.get` (keys are unique in every reachable state). -/
def alGet {α : Type} (k : List Char) : List (List Char × α) → Option α
  | [] => none
  | (k0, v) :: rest => if k0 = k then some v else alGet k rest

/-- Update or insert, mirroring JavaScript `Map.set`. -/
def alSet {α : Type} (k : List Char) (v : α) : List (List Char × α) → List (List Char × α)
  | [] => [(k, v)]
  | (k0, v0) :: rest => if k0 = k then (k, v) :: rest else (k0, v0) :: alSet k v rest

/-- Deletion, mirroring JavaScript `Map.delete`; the Bool is the return
value of `delete` (whether an entry existed). -/
def alDel {α : Type} (k : List Char) : List (List Char × α) → List (List Char × α) × Bool
  | [] => ([], false)
  | (k0, v0) :: rest =>
    if k0 = k then ((alDel k rest).1, true)
    else
      let r := alDel k rest
      ((k0, v0) :: r.1, r.2)

/-- In the JavaScript regex `/ (.*)/` the dot does not match a raw
newline, so the captured group stops at the first newline. -/
def takeUntilNL (s : List Char) : List Char :=
  s.takeWhile (fun c => decide (c ≠ '\n'))

/-- Model of the idiom `const [a, b] = s.split(/ (.*)/)` used throughout
`Router.routeEvent` (src/unnamed/part_001).  If the string contains no
space the JS result is `[s]` and `b` is `undefined`, modelled as `none`. -/
def jsSplitFirst : List Char → List Char × Option (List Char)
  | [] => ([], none)
  | c :: rest =>
    if c = ' ' then ([], some (takeUntilNL rest))
    else
      let r := jsSplitFirst rest
      (c :: r.1, r.2)

/-- Model of JavaScript `s.split(sep)` for a one-character separator,
used by `registerListener` as `event.split(":")`. -/
def jsSplitAll (sep : Char) : List Char → List (List Char)
  | [] => [[]]
  | c :: rest =>
    if c = sep then [] :: jsSplitAll sep rest
    else
      match jsSplitAll sep rest with
      | [] => [[c]]
      | seg :: segs => (c :: seg) :: segs

/-- JSON-like values, the image of `JSON.parse` on the wire payloads
(`SerializableValue` without the `Failure` sentinel). -/
inductive JValue where
  | null
  | bool (b : Bool)
  | num (n : Int)
  | str (s : List Char)
  | arr (xs : List JValue)
  | obj (fields : List (List Char × JValue))

/-- A value as seen by listeners: ordinary data or the `Failure`
sentinel from failure.js.  JavaScript does not force the message to be
a string (`payload.__IPCFAILURE__ as string` is a cast), so the message
is kept as a `JValue`. -/
inductive IpcValue where
  | val (v : JValue)
  | failure (message : JValue)

/-- Outcome of calling a listener inside try/catch: a normal return
value (possibly a `Failure`) or a thrown exception. -/
inductive HandlerResult where
  | ok (v : IpcValue)
  | thrown

/-- A registered IPC listener (`ScriptEventListener`); the `await` in
`invokeListener`/`callListener` makes synchronous and suspending
handlers share this one shape. -/
def Handler : Type := IpcValue → HandlerResult

/-- The reserved envelope key of failure.js / `parseRawPayload`. -/
def FAILURE_KEY : List Char := "__IPCFAILURE__".data

/-- The reserved-key check of `Router.parseRawPayload`
(src/unnamed/part_001 lines 277-289), applied to the already-parsed
JSON value: a top-level object containing `__IPCFAILURE__` is
reinterpreted as a `Failure` wrapping that key's value. -/
def interpretParsed (v : JValue) : IpcValue :=
  match v with
  | JValue.obj fields =>
    match alGet FAILURE_KEY fields with
    | some m => IpcValue.failure m
    | none => IpcValue.val v
  | _ => IpcValue.val v

/-- Full `parseRawPayload`: deserialize then reinterpret.  The
deserializer `de` is the external serializer collaborator (JSON.parse);
`none` models a parse exception.  A `none` raw payload models the
JavaScript `undefined` reaching `JSON.parse`, which throws. -/
def parseRawPayload (de : List Char → Option JValue) (raw : Option (List Char)) : Option IpcValue :=
  match raw with
  | none => none
  | some chars => (de chars).map interpretParsed

/-- The envelope step of `Router.invokeListener` (lines 307-311): a
`Failure` return value is encoded as an object under the reserved key,
anything else is passed through. -/
def encodeResponse (r : IpcValue) : JValue :=
  match r with
  | IpcValue.failure m => JValue.obj [(FAILURE_KEY, m)]
  | IpcValue.val v => v

/-- Observable effects of one `Router.invokeListener` run: the
`sendAuto` calls it makes (event id and payload) and whether it logged
a caught handler error. -/
structure InvokeEffects where
  sent : List (List Char × JValue)
  warned : Bool

/-- Model of `Router.invokeListener` (src/unnamed/part_001 lines
291-321): parse the raw payload; call the handler inside try/catch
(response defaults to null on a throw); envelope a `Failure` response;
send exactly one `sendAuto` response; warn afterwards if the handler
threw.  A payload parse exception rejects the (void-ed) promise before
anything is sent. -/
def invokeListenerModel (de : List Char → Option JValue) (h : Handler)
    (respEv : List Char) (raw : Option (List Char)) : InvokeEffects :=
  match parseRawPayload de raw with
  | none => { sent := [], warned := false }
  | some payload =>
    match h payload with
    | HandlerResult.ok v => { sent := [(respEv, encodeResponse v)], warned := false }
    | HandlerResult.thrown => { sent := [(respEv, JValue.null)], warned := true }

/-- Constants from src/unnamed/part_002 lines 9-14. -/
def MAX_MESSAGE_LENGTH : Nat := 428

/-- Namespace length limit (src/unnamed/part_002 line 10). -/
def MAX_NAMESPACE_LENGTH : Nat := 30

/-- Per-fragment overhead budget for stream chunks (src/unnamed/part_002
line 14). -/
def STREAM_MESSAGE_PADDING : Nat := MAX_NAMESPACE_LENGTH + 5

/-- The fragment size bound of the splitter loop (src/unnamed/part_002
lines 202-203). -/
def maxMessageLengthWithPadding : Nat := MAX_MESSAGE_LENGTH - STREAM_MESSAGE_PADDING

/-- The splitting loop of `streamScriptEvent` (src/unnamed/part_002
lines 200-219): repeatedly cut `maxMessageLengthWithPadding` characters
off the front of whatever is still too long. -/
def splitParts (s : List Char) : List (List Char) :=
  if _h : s.length ≤ maxMessageLengthWithPadding then [s]
  else s.take maxMessageLengthWithPadding :: splitParts (s.drop maxMessageLengthWithPadding)
termination_by s.length
decreasing_by
  have hM : maxMessageLengthWithPadding = 393 := rfl
  simp only [List.length_drop]
  omega

/-- The emission loop of `streamScriptEvent` (src/unnamed/part_002 lines
221-231): frame body `streamId SP flag SP part` where the flag is `t`
exactly on the last index (`i >= parts.length - 1`). -/
def emitLoop (sid : List Char) (total : Nat) : Nat → List (List Char) → List (List Char)
  | _, [] => []
  | i, p :: rest =>
    (sid ++ ' ' :: (if total - 1 ≤ i then 't' else 'f') :: ' ' :: p) :: emitLoop sid total (i + 1) rest

/-- Chunk frame bodies for a list of fragments, as emitted by the
splitter. -/
def emitFrames (sid : List Char) (parts : List (List Char)) : List (List Char) :=
  emitLoop sid parts.length 0 parts

/-- Structural restatement of the emission loop used in proofs: every
fragment but the last is flagged `f`, the last is flagged `t`. -/
def framesRec (sid : List Char) : List (List Char) → List (List Char)
  | [] => []
  | [p] => [sid ++ ' ' :: 't' :: ' ' :: p]
  | p :: q :: rest => (sid ++ ' ' :: 'f' :: ' ' :: p) :: framesRec sid (q :: rest)

/-- The four IPC type flags of common.js (`IpcTypeFlag`). -/
inductive IpcTypeFlag where
  | send
  | invoke
  | sendStream
  | invokeStream
deriving DecidableEq

/-- Modelled from the spec: common.js is not under src, so the concrete
flag characters are unknown; section 4.1 and the glossary require a
single-character discriminator per frame type, and only distinctness of
the four characters is ever used. -/
def IpcTypeFlag.toChar : IpcTypeFlag → Char
  | IpcTypeFlag.send => 's'
  | IpcTypeFlag.invoke => 'i'
  | IpcTypeFlag.sendStream => 'S'
  | IpcTypeFlag.invokeStream => 'I'

/-- Reading `rawMsg[0] as IpcTypeFlag`: a character that is none of the
four flags matches no `switch` case and the frame falls through. -/
def charToFlag (c : Char) : Option IpcTypeFlag :=
  if c = 's' then some IpcTypeFlag.send
  else if c = 'i' then some IpcTypeFlag.invoke
  else if c = 'S' then some IpcTypeFlag.sendStream
  else if c = 'I' then some IpcTypeFlag.invokeStream
  else none

/-- Explicit state of a `Router` instance (src/unnamed/part_001 lines
17-32): validity flag, stream reassembly buffers, listener registry and
the two uid counters. -/
structure RouterState where
  internalIsValid : Bool
  pendingStreams : List (List Char × List Char)
  listeners : List (List Char × Handler)
  listenerUidsGenerated : Nat
  streamUidsGenerated : Nat

/-- The `isValid` getter (lines 56-58). -/
def RouterState.isValid (s : RouterState) : Bool := s.internalIsValid

/-- `Router.destroy` (lines 63-68): unsubscribe from the external
transport (no effect on the explicit state) and clear the validity
flag. -/
def destroy (s : RouterState) : RouterState :=
  { s with internalIsValid := false }

/-- The two error conditions of `registerListener`. -/
inductive RegError where
  | duplicate
  | badFormat
deriving DecidableEq

/-- JavaScript `event.split(":")[1]`: the segment between the first and
second colon. -/
def localSegment (ev : List Char) : List Char :=
  (jsSplitAll ':' ev).getD 1 []

/-- JavaScript `.startsWith("_")` on a string modelled as a char list. -/
def startsUnderscore : List Char → Bool
  | c :: _ => decide (c = '_')
  | [] => false

/-- `Router.registerListener` (src/unnamed/part_001 lines 76-90):
reject a duplicate id, then reject an id without a colon or whose
`split(":")[1]` starts with an underscore; only then store the
callback.  Returns the new state and the thrown error, if any. -/
def registerListener (s : RouterState) (ev : List Char) (h : Handler) :
    RouterState × Option RegError :=
  if (alGet ev s.listeners).isSome then (s, some RegError.duplicate)
  else if !ev.contains ':' || startsUnderscore (localSegment ev) then (s, some RegError.badFormat)
  else ({ s with listeners := alSet ev h s.listeners }, none)

/-- `Router.removeListener` (lines 97-99): `Map.delete`. -/
def removeListener (s : RouterState) (ev : List Char) : RouterState × Bool :=
  let r := alDel ev s.listeners
  ({ s with listeners := r.1 }, r.2)

/-- The asynchronous listener calls that `routeEvent` kicks off
(`void this.callListener(...)` / `void this.invokeListener(...)`).
An Invoke dispatch whose body had no space carries `none` for the
payload (JavaScript `undefined`). -/
inductive RAction where
  | dispatchSend (listenerId : List Char) (content : List Char)
  | dispatchInvoke (listenerId : List Char) (responseEvent : List Char) (rawPayload : Option (List Char))

/-- The SendStream/InvokeStream branch of `Router.routeEvent`
(src/unnamed/part_001 lines 360-387).  When the body has no space,
`afterId` is `undefined` and `afterId.split` throws a synchronous
TypeError, modelled as `Except.error ()`.  When the second split finds
no space, `content` is `undefined` and JavaScript string concatenation
coerces it to the literal text `undefined`. -/
def routeChunk (s : RouterState) (id : List Char) (isInvokeStream : Bool)
    (message : List Char) : Except Unit (RouterState × List RAction) :=
  match jsSplitFirst message with
  | (sid, afterIdOpt) =>
    match afterIdOpt with
    | none => Except.error ()
    | some afterId =>
      match jsSplitFirst afterId with
      | (isEndRaw, contentOpt) =>
        let content := contentOpt.getD "undefined".data
        let cached := (alGet sid s.pendingStreams).getD []
        let fullContent := cached ++ content
        if isEndRaw = ['t'] then
          let s1 : RouterState := { s with pendingStreams := (alDel sid s.pendingStreams).1 }
          if isInvokeStream then
            match jsSplitFirst fullContent with
            | (respEv, payloadOpt) =>
              Except.ok (s1, [RAction.dispatchInvoke id respEv payloadOpt])
          else
            Except.ok (s1, [RAction.dispatchSend id fullContent])
        else
          Except.ok ({ s with pendingStreams := alSet sid fullContent s.pendingStreams }, [])

/-- `Router.routeEvent` (src/unnamed/part_001 lines 339-389): drop
frames without a registered listener, read the type flag, and branch.
The result is the updated router state plus the listener calls started;
`Except.error` models a synchronous exception escaping the method. -/
def routeEvent (s : RouterState) (id : List Char) (rawMsg : List Char) :
    Except Unit (RouterState × List RAction) :=
  match alGet id s.listeners with
  | none => Except.ok (s, [])
  | some _ =>
    match rawMsg with
    | [] => Except.ok (s, [])
    | c :: message =>
      match charToFlag c with
      | none => Except.ok (s, [])
      | some IpcTypeFlag.send => Except.ok (s, [RAction.dispatchSend id message])
      | some IpcTypeFlag.invoke =>
        match jsSplitFirst message with
        | (respEv, payloadOpt) => Except.ok (s, [RAction.dispatchInvoke id respEv payloadOpt])
      | some IpcTypeFlag.sendStream => routeChunk s id false message
      | some IpcTypeFlag.invokeStream => routeChunk s id true message

/-- Routing a sequence of inbound frames, in delivery order, to one
event id; a synchronous exception aborts the delivery path. -/
def routeMany (s : RouterState) (ev : List Char) :
    List (List Char) → Except Unit (RouterState × List RAction)
  | [] => Except.ok (s, [])
  | m :: ms =>
    match routeEvent s ev m with
    | Except.error e => Except.error e
    | Except.ok (s1, acts) =>
      match routeMany s1 ev ms with
      | Except.error e => Except.error e
      | Except.ok (s2, acts2) => Except.ok (s2, acts ++ acts2)

/-- Chunk frames as wired: the stream type flag character prepended to
each emitted body (framing per spec section 4.1; sendStreamInternal in
send.js is not under src). -/
def sendStreamFrames (flag : IpcTypeFlag) (ev sid serialized : List Char) :
    List (List Char × List Char) :=
  (emitFrames sid (splitParts serialized)).map (fun body => (ev, flag.toChar :: body))

/-- Model of `Router.sendAuto` (src/unnamed/part_001 lines 119-136),
taking the already-serialized payload: stream when it exceeds
`MAX_MESSAGE_LENGTH`, otherwise send one plain frame.  Modelled from
the spec where send.js is missing: `sendInternal` emits the single
frame `<F_SEND><json>` (section 4.1). -/
def sendAutoFrames (ev serialized sid : List Char) : List (List Char × List Char) :=
  if MAX_MESSAGE_LENGTH < serialized.length then
    sendStreamFrames IpcTypeFlag.sendStream ev sid serialized
  else
    [(ev, IpcTypeFlag.send.toChar :: serialized)]

/-- Modelled from the spec: `send` / `sendInternal` (send.js, not
under src) emit one `<F_SEND><json>` frame (section 4.1) after the
oversize check of `dispatchScriptEvent` (src/unnamed/part_002 lines
111-133): without `force`, a payload longer than the limit throws
before anything is sent. -/
def sendFrames (ev serialized : List Char) (force : Bool) :
    Except Unit (List (List Char × List Char)) :=
  if force then Except.ok [(ev, IpcTypeFlag.send.toChar :: serialized)]
  else if MAX_MESSAGE_LENGTH < serialized.length then Except.error ()
  else Except.ok [(ev, IpcTypeFlag.send.toChar :: serialized)]

/-- How a pending invoke promise was settled. -/
inductive Settled where
  | resolved (v : IpcValue)
  | rejectedFailure (m : JValue)
  | timedOut

/-- The settle branch of the response listener in `invokeInternal` /
`invokeStreamInternal` (lines 215-219 and 245-249): reject when the
payload is a `Failure` and `throwFailures` was requested, otherwise
resolve with the payload (a `Failure` included, as data). -/
def settleOutcome (throwFailures : Bool) (v : IpcValue) : Settled :=
  match v, throwFailures with
  | IpcValue.failure m, true => Settled.rejectedFailure m
  | IpcValue.failure m, false => Settled.resolved (IpcValue.failure m)
  | IpcValue.val v0, _ => Settled.resolved (IpcValue.val v0)

/-- State of one pending invoke (`Router.invokeInternal`,
src/unnamed/part_001 lines 201-229): whether the one-shot response
listener is still registered, whether the 20-tick timer is armed
(`system.runTimeout` handle not yet fired or cleared), and how the
promise was settled, if at all. -/
structure PendingState where
  hasListener : Bool
  timerArmed : Bool
  settled : Option Settled

/-- The default invoke timeout window (`system.runTimeout(..., 20)`). -/
def INVOKE_TIMEOUT_TICKS : Nat := 20

/-- The two events that can end a pending invoke. -/
inductive PendingEvent where
  | timerFire
  | response (v : IpcValue)

/-- One step of the pending-invoke race.  The timer callback (lines
206-209) runs only if the timer is still armed; it removes the response
listener and rejects with the timeout error.  A response frame (routed
through `routeEvent`, lines 340-341) reaches the one-shot listener only
while it is registered; the listener (lines 211-222) removes itself,
clears the timer and settles the promise.  A promise settles at most
once (`Option.getD` keeps the first settlement). -/
def invokeStep (throwFailures : Bool) (s : PendingState) (e : PendingEvent) : PendingState :=
  match e with
  | PendingEvent.timerFire =>
    if s.timerArmed then
      { hasListener := false, timerArmed := false,
        settled := some (s.settled.getD Settled.timedOut) }
    else s
  | PendingEvent.response v =>
    if s.hasListener then
      { hasListener := false, timerArmed := false,
        settled := some (s.settled.getD (settleOutcome throwFailures v)) }
    else s

/-- State after the synchronous body of `invokeInternal`: listener
registered, timer armed, promise pending. -/
def pendingInit : PendingState :=
  { hasListener := true, timerArmed := true, settled := none }

/-- State of one pending stream invoke (`Router.invokeStreamInternal`,
src/unnamed/part_001 lines 231-267).  `timeoutSet` tracks
`timeoutId !== undefined`: the listener callback calls
`system.clearRun` only when the id has been assigned. -/
structure StreamPendingState where
  hasListener : Bool
  timeoutSet : Bool
  timerArmed : Bool
  settled : Option Settled

/-- Events of a stream invoke: transmitting one outbound chunk, the
`.finally` arming the timer after the last chunk, the timer firing, and
a response frame arriving. -/
inductive StreamEvent where
  | sendChunk (body : List Char)
  | armTimer
  | timerFire
  | response (v : IpcValue)

/-- One step of the stream-invoke race (lines 236-266).  Sending a
chunk does not touch the pending state.  `armTimer` is the `.finally`
callback assigning `timeoutId = system.runTimeout(..., 20)`.  The timer
callback removes the listener and rejects; the response listener
removes itself, clears the timer only if `timeoutId` was assigned, and
settles.  A promise settles at most once. -/
def streamStep (throwFailures : Bool) (s : StreamPendingState) (e : StreamEvent) : StreamPendingState :=
  match e with
  | StreamEvent.sendChunk _ => s
  | StreamEvent.armTimer => { s with timeoutSet := true, timerArmed := true }
  | StreamEvent.timerFire =>
    if s.timerArmed then
      { s with timerArmed := false, hasListener := false,
               settled := some (s.settled.getD Settled.timedOut) }
    else s
  | StreamEvent.response v =>
    if s.hasListener then
      { hasListener := false,
        timeoutSet := s.timeoutSet,
        timerArmed := if s.timeoutSet then false else s.timerArmed,
        settled := some (s.settled.getD (settleOutcome throwFailures v)) }
    else s

/-- State after the synchronous body of `invokeStreamInternal`: the
listener is registered first; `timeoutId` is still `undefined` and no
timer is armed. -/
def streamPendingInit : StreamPendingState :=
  { hasListener := true, timeoutSet := false, timerArmed := false, settled := none }

/-- The order of operations of `invokeStreamInternal`: every outbound
chunk is transmitted (each awaited by `sendStreamInternal`), and only
the `.finally` after the last one arms the response timer. -/
def streamProgEvents (chunks : List (List Char)) : List StreamEvent :=
  chunks.map StreamEvent.sendChunk ++ [StreamEvent.armTimer]

/-- A trivial registered handler used for concrete witnesses. -/
def handlerNull : Handler := fun _ => HandlerResult.ok (IpcValue.val JValue.null)

/-- A handler that throws, used for concrete witnesses. -/
def handlerThrow : Handler := fun _ => HandlerResult.thrown

/-- A handler returning `Failure("x")`, used for concrete witnesses. -/
def handlerFailX : Handler := fun _ => HandlerResult.ok (IpcValue.failure (JValue.str "x".data))

/-- A concrete event id with a namespace. -/
def evA : List Char := "a:b".data

/-- A concrete stream id (no spaces, as generated by
`generateStreamUid`). -/
def sidR : List Char := "r0".data

/-- A concrete router with one registered listener and no pending
streams. -/
def sampleRouter : RouterState :=
  { internalIsValid := true
    pendingStreams := []
    listeners := [(evA, handlerNull)]
    listenerUidsGenerated := 0
    streamUidsGenerated := 0 }

/-- A serialized payload one character over the transport limit. -/
def payloadBig : List Char := List.replicate 429 'a'

/-- A degenerate but round-tripping deserializer used in witnesses for
the external serializer collaborator of spec section 6. -/
def deW : List Char → Option JValue :=
  fun s =>
    if s = "R".data then some JValue.null
    else some (JValue.obj [(FAILURE_KEY, JValue.str "x".data)])

/-- A serializer matching `deW` on the one value a witness transfers. -/
def serW : JValue → List Char := fun _ => "S".data

/-! ## Association list lemmas -/

theorem alGet_alSet_self {α : Type} (k : List Char) (v : α) (l : List (List Char × α)) :
    alGet k (alSet k v l) = some v := by
  induction l with
  | nil => simp [alGet, alSet]
  | cons hd tl ih =>
    obtain ⟨k0, v0⟩ := hd
    by_cases h : k0 = k
    · simp [alGet, alSet, h]
    · simp [alGet, alSet, h, ih]

theorem alSet_alSet {α : Type} (k : List Char) (v1 v2 : α) (l : List (List Char × α)) :
    alSet k v2 (alSet k v1 l) = alSet k v2 l := by
  induction l with
  | nil => simp [alSet]
  | cons hd tl ih =>
    obtain ⟨k0, v0⟩ := hd
    by_cases h : k0 = k
    · simp [alSet, h]
    · simp [alSet, h, ih]

theorem alDel_fst_alSet {α : Type} (k : List Char) (v : α) (l : List (List Char × α)) :
    (alDel k (alSet k v l)).1 = (alDel k l).1 := by
  induction l with
  | nil => simp [alDel, alSet]
  | cons hd tl ih =>
    obtain ⟨k0, v0⟩ := hd
    by_cases h : k0 = k
    · simp [alDel, alSet, h]
    · simp [alDel, alSet, h, ih]

theorem alDel_absent {α : Type} (k : List Char) (l : List (List Char × α))
    (h : alGet k l = none) : alDel k l = (l, false) := by
  induction l with
  | nil => simp [alDel]
  | cons hd tl ih =>
    obtain ⟨k0, v0⟩ := hd
    by_cases hk : k0 = k
    · simp [alGet, hk] at h
    · simp [alGet, hk] at h
      simp [alDel, hk, ih h]

theorem alDel_snd {α : Type} (k : List Char) (l : List (List Char × α)) :
    (alDel k l).2 = (alGet k l).isSome := by
  induction l with
  | nil => simp [alDel, alGet]
  | cons hd tl ih =>
    obtain ⟨k0, v0⟩ := hd
    by_cases hk : k0 = k
    · simp [alDel, alGet, hk]
    · simp [alDel, alGet, hk, ih]

theorem alGet_alDel_self {α : Type} (k : List Char) (l : List (List Char × α)) :
    alGet k (alDel k l).1 = none := by
  induction l with
  | nil => simp [alDel, alGet]
  | cons hd tl ih =>
    obtain ⟨k0, v0⟩ := hd
    by_cases hk : k0 = k
    · simp [alDel, hk, ih]
    · simp [alDel, alGet, hk, ih]

/-! ## Splitting lemmas -/

theorem takeUntilNL_all (l : List Char) (h : '\n' ∉ l) : takeUntilNL l = l := by
  induction l with
  | nil => rfl
  | cons c rest ih =>
    simp only [List.mem_cons, not_or] at h
    have hc : c ≠ '\n' := fun he => h.1 he.symm
    have ht := ih h.2
    have hdec : (decide (c ≠ '\n')) = true := by simp [hc]
    simp only [takeUntilNL] at ht ⊢
    rw [List.takeWhile_cons, hdec, if_pos rfl, ht]

theorem jsSplitFirst_no_space (a : List Char) (h : ' ' ∉ a) : jsSplitFirst a = (a, none) := by
  induction a with
  | nil => rfl
  | cons c rest ih =>
    simp only [List.mem_cons, not_or] at h
    have hc : c ≠ ' ' := fun he => h.1 he.symm
    simp [jsSplitFirst, hc, ih h.2]

theorem jsSplitFirst_split (a b : List Char) (h : ' ' ∉ a) :
    jsSplitFirst (a ++ ' ' :: b) = (a, some (takeUntilNL b)) := by
  induction a with
  | nil => simp [jsSplitFirst]
  | cons c rest ih =>
    simp only [List.mem_cons, not_or] at h
    have hc : c ≠ ' ' := fun he => h.1 he.symm
    simp [jsSplitFirst, hc, ih h.2]

theorem jsSplitAll_ne_nil (sep : Char) (l : List Char) : jsSplitAll sep l ≠ [] := by
  induction l with
  | nil => simp [jsSplitAll]
  | cons c rest ih =>
    by_cases hc : c = sep
    · simp [jsSplitAll, hc]
    · simp only [jsSplitAll, if_neg hc]
      match hm : jsSplitAll sep rest with
      | [] => exact absurd hm ih
      | seg :: segs => simp

theorem jsSplitAll_headD (sep : Char) (l : List Char) :
    (jsSplitAll sep l).headD [] = l.takeWhile (fun c => decide (c ≠ sep)) := by
  induction l with
  | nil => rfl
  | cons c rest ih =>
    by_cases hc : c = sep
    · simp [jsSplitAll, hc, List.takeWhile]
    · simp only [jsSplitAll, if_neg hc]
      match hm : jsSplitAll sep rest with
      | [] => exact absurd hm (jsSplitAll_ne_nil sep rest)
      | seg :: segs =>
        have := ih
        rw [hm] at this
        simp only [List.headD] at this
        simp [List.takeWhile, hc, this]

theorem jsSplitAll_append (a b : List Char) (h : ':' ∉ a) :
    jsSplitAll ':' (a ++ ':' :: b) = a :: jsSplitAll ':' b := by
  induction a with
  | nil => simp [jsSplitAll]
  | cons c rest ih =>
    simp only [List.mem_cons, not_or] at h
    have hc : c ≠ ':' := fun he => h.1 he.symm
    simp only [List.cons_append, jsSplitAll, if_neg hc]
    rw [show rest.append (':' :: b) = rest ++ ':' :: b from rfl, ih h.2]

/-! ## Flag decoding lemmas -/

theorem charToFlag_send : charToFlag IpcTypeFlag.send.toChar = some IpcTypeFlag.send := by decide

theorem charToFlag_invoke : charToFlag IpcTypeFlag.invoke.toChar = some IpcTypeFlag.invoke := by
  decide

theorem charToFlag_sendStream :
    charToFlag IpcTypeFlag.sendStream.toChar = some IpcTypeFlag.sendStream := by decide

theorem charToFlag_invokeStream :
    charToFlag IpcTypeFlag.invokeStream.toChar = some IpcTypeFlag.invokeStream := by decide

/-! ## Splitter lemmas -/

theorem splitParts_bundle (n : Nat) : ∀ s : List Char, s.length ≤ n →
    (splitParts s).flatten = s ∧
    (∀ p ∈ splitParts s, p.length ≤ maxMessageLengthWithPadding ∧ ∀ c ∈ p, c ∈ s) ∧
    splitParts s ≠ [] ∧
    (maxMessageLengthWithPadding < s.length → 2 ≤ (splitParts s).length) := by
  induction n with
  | zero =>
    intro s hs
    have hnil : s = [] := List.eq_nil_of_length_eq_zero (Nat.le_zero.mp hs)
    subst hnil
    rw [splitParts, dif_pos (by simp [maxMessageLengthWithPadding])]
    simp
  | succ n ih =>
    intro s hs
    by_cases hM : s.length ≤ maxMessageLengthWithPadding
    · rw [splitParts, dif_pos hM]
      refine ⟨by simp, ?_, by simp, ?_⟩
      · intro p hp
        simp only [List.mem_singleton] at hp
        subst hp
        exact ⟨hM, fun _ hc => hc⟩
      · intro hlt
        exact absurd hM (Nat.not_le.mpr hlt)
    · rw [splitParts, dif_neg hM]
      have hpos : 0 < maxMessageLengthWithPadding := by decide
      have hlen : (s.drop maxMessageLengthWithPadding).length ≤ n := by
        simp only [List.length_drop]
        omega
      obtain ⟨hjoin, hmem, hne, _⟩ := ih (s.drop maxMessageLengthWithPadding) hlen
      refine ⟨?_, ?_, by simp, ?_⟩
      · rw [List.flatten_cons, hjoin, List.take_append_drop]
      · intro p hp
        simp only [List.mem_cons] at hp
        rcases hp with hp | hp
        · subst hp
          refine ⟨?_, fun c hc => List.take_subset _ _ hc⟩
          simp only [List.length_take]
          exact Nat.min_le_left _ _
        · obtain ⟨h1, h2⟩ := hmem p hp
          exact ⟨h1, fun c hc => List.drop_subset _ _ (h2 c hc)⟩
      · intro _
        have : 1 ≤ (splitParts (s.drop maxMessageLengthWithPadding)).length :=
          Nat.one_le_iff_ne_zero.mpr (fun h0 => hne (List.eq_nil_of_length_eq_zero h0))
        simp only [List.length_cons]
        omega

theorem splitParts_flatten (s : List Char) : (splitParts s).flatten = s :=
  (splitParts_bundle s.length s le_rfl).1

theorem splitParts_sizes (s : List Char) :
    ∀ p ∈ splitParts s, p.length ≤ maxMessageLengthWithPadding :=
  fun p hp => ((splitParts_bundle s.length s le_rfl).2.1 p hp).1

theorem splitParts_chars (s : List Char) : ∀ p ∈ splitParts s, ∀ c ∈ p, c ∈ s :=
  fun p hp => ((splitParts_bundle s.length s le_rfl).2.1 p hp).2

theorem splitParts_ne_nil (s : List Char) : splitParts s ≠ [] :=
  (splitParts_bundle s.length s le_rfl).2.2.1

theorem splitParts_two (s : List Char) (h : maxMessageLengthWithPadding < s.length) :
    2 ≤ (splitParts s).length :=
  (splitParts_bundle s.length s le_rfl).2.2.2 h

/-! ## Emission loop lemmas -/

theorem emitLoop_eq_framesRec (sid : List Char) :
    ∀ (rest : List (List Char)) (i total : Nat), i + rest.length = total →
      emitLoop sid total i rest = framesRec sid rest := by
  intro rest
  induction rest with
  | nil => intro i total _; rfl
  | cons p rest ih =>
    intro i total htot
    cases rest with
    | nil =>
      have hc : total - 1 ≤ i := by simp at htot; omega
      simp [emitLoop, framesRec, hc]
    | cons q rest2 =>
      have hc : ¬ (total - 1 ≤ i) := by
        simp only [List.length_cons] at htot
        omega
      have hrec := ih (i + 1) total (by simp only [List.length_cons] at htot ⊢; omega)
      calc emitLoop sid total i (p :: q :: rest2)
          = (sid ++ ' ' :: (if total - 1 ≤ i then 't' else 'f') :: ' ' :: p) ::
              emitLoop sid total (i + 1) (q :: rest2) := rfl
        _ = (sid ++ ' ' :: 'f' :: ' ' :: p) :: framesRec sid (q :: rest2) := by
              rw [hrec, if_neg hc]
        _ = framesRec sid (p :: q :: rest2) := rfl

theorem emitFrames_eq_framesRec (sid : List Char) (parts : List (List Char)) :
    emitFrames sid parts = framesRec sid parts :=
  emitLoop_eq_framesRec sid parts 0 parts.length (by omega)

theorem framesRec_struct (sid : List Char) :
    ∀ parts : List (List Char), parts ≠ [] →
      framesRec sid parts =
        (parts.dropLast.map (fun p => sid ++ ' ' :: 'f' :: ' ' :: p)) ++
          [sid ++ ' ' :: 't' :: ' ' :: parts.getLastD []] := by
  intro parts
  induction parts with
  | nil => intro h; exact absurd rfl h
  | cons p rest ih =>
    intro _
    cases rest with
    | nil => simp [framesRec]
    | cons q rest2 =>
      have := ih (by simp)
      simp only [framesRec, this]
      simp [List.getLastD_cons]

/-! ## routeEvent evaluation lemmas -/

theorem routeEvent_sendStream (s : RouterState) (id msg : List Char) (hh : Handler)
    (hlist : alGet id s.listeners = some hh) :
    routeEvent s id (IpcTypeFlag.sendStream.toChar :: msg) = routeChunk s id false msg := by
  simp only [routeEvent, hlist, charToFlag_sendStream]

theorem routeEvent_invokeStream (s : RouterState) (id msg : List Char) (hh : Handler)
    (hlist : alGet id s.listeners = some hh) :
    routeEvent s id (IpcTypeFlag.invokeStream.toChar :: msg) = routeChunk s id true msg := by
  simp only [routeEvent, hlist, charToFlag_invokeStream]

theorem routeEvent_send (s : RouterState) (id msg : List Char) (hh : Handler)
    (hlist : alGet id s.listeners = some hh) :
    routeEvent s id (IpcTypeFlag.send.toChar :: msg) =
      Except.ok (s, [RAction.dispatchSend id msg]) := by
  simp only [routeEvent, hlist, charToFlag_send]

theorem routeEvent_invoke (s : RouterState) (id msg : List Char) (hh : Handler)
    (hlist : alGet id s.listeners = some hh) :
    routeEvent s id (IpcTypeFlag.invoke.toChar :: msg) =
      Except.ok (s, [RAction.dispatchInvoke id (jsSplitFirst msg).1 (jsSplitFirst msg).2]) := by
  simp only [routeEvent, hlist, charToFlag_invoke]

theorem takeUntilNL_flag (c : Char) (frag : List Char) (hc : c ≠ '\n') (hfrag : '\n' ∉ frag) :
    takeUntilNL (c :: ' ' :: frag) = c :: ' ' :: frag := by
  apply takeUntilNL_all
  simp only [List.mem_cons, not_or]
  exact ⟨fun he => hc he.symm, by decide, hfrag⟩

theorem jsSplitFirst_flag (c : Char) (frag : List Char) (hc : c ≠ ' ') :
    jsSplitFirst (c :: ' ' :: frag) = ([c], some (takeUntilNL frag)) := by
  simp [jsSplitFirst, hc]

theorem routeChunk_nonterm (s : RouterState) (id sid frag : List Char) (isInv : Bool)
    (hsid : ' ' ∉ sid) (hfrag : '\n' ∉ frag) :
    routeChunk s id isInv (sid ++ ' ' :: 'f' :: ' ' :: frag) =
      Except.ok
        ({ s with pendingStreams := alSet sid (((alGet sid s.pendingStreams).getD []) ++ frag) s.pendingStreams },
         []) := by
  have h1 := jsSplitFirst_split sid ('f' :: ' ' :: frag) hsid
  have h2 := takeUntilNL_flag 'f' frag (by decide) hfrag
  have h3 := jsSplitFirst_flag 'f' frag (by decide)
  have h4 := takeUntilNL_all frag hfrag
  simp only [routeChunk, h1, h2, h3, h4]
  simp

theorem routeChunk_term (s : RouterState) (id sid frag : List Char)
    (hsid : ' ' ∉ sid) (hfrag : '\n' ∉ frag) :
    routeChunk s id false (sid ++ ' ' :: 't' :: ' ' :: frag) =
      Except.ok
        ({ s with pendingStreams := (alDel sid s.pendingStreams).1 },
         [RAction.dispatchSend id (((alGet sid s.pendingStreams).getD []) ++ frag)]) := by
  have h1 := jsSplitFirst_split sid ('t' :: ' ' :: frag) hsid
  have h2 := takeUntilNL_flag 't' frag (by decide) hfrag
  have h3 := jsSplitFirst_flag 't' frag (by decide)
  have h4 := takeUntilNL_all frag hfrag
  simp only [routeChunk, h1, h2, h3, h4]
  simp

/-! ## Reassembly of an emitted chunk sequence -/

theorem routeMany_chunkList :
    ∀ (ps : List (List Char)) (s : RouterState) (ev sid : List Char) (hh : Handler),
      ps ≠ [] → (∀ p ∈ ps, '\n' ∉ p) → ' ' ∉ sid →
      alGet ev s.listeners = some hh →
      routeMany s ev ((framesRec sid ps).map (fun b => IpcTypeFlag.sendStream.toChar :: b)) =
        Except.ok
          ({ s with pendingStreams := (alDel sid s.pendingStreams).1 },
           [RAction.dispatchSend ev (((alGet sid s.pendingStreams).getD []) ++ ps.flatten)]) := by
  intro ps
  induction ps with
  | nil => intro s ev sid hh hne; exact absurd rfl hne
  | cons p rest ih =>
    intro s ev sid hh _ hnl hsid hlist
    have hp : '\n' ∉ p := hnl p (by simp)
    cases rest with
    | nil =>
      simp only [framesRec, List.map_cons, List.map_nil, routeMany]
      rw [routeEvent_sendStream s ev _ hh hlist, routeChunk_term s ev sid p hsid hp]
      simp
    | cons q rest2 =>
      have hstep := routeChunk_nonterm s ev sid p false hsid hp
      have hre := routeEvent_sendStream s ev (sid ++ ' ' :: 'f' :: ' ' :: p) hh hlist
      have hrec := ih
        { s with pendingStreams := alSet sid (((alGet sid s.pendingStreams).getD []) ++ p) s.pendingStreams }
        ev sid hh (by simp) (fun x hx => hnl x (by simp [hx])) hsid hlist
      simp only [framesRec, List.map_cons, routeMany, hre, hstep, hrec]
      simp [alGet_alSet_self, alDel_fst_alSet, List.append_assoc]

theorem routeMany_nonterm :
    ∀ (qs : List (List Char)) (s : RouterState) (ev sid : List Char) (hh : Handler),
      qs ≠ [] → (∀ p ∈ qs, '\n' ∉ p) → ' ' ∉ sid →
      alGet ev s.listeners = some hh →
      routeMany s ev
          (qs.map (fun p => IpcTypeFlag.sendStream.toChar :: (sid ++ ' ' :: 'f' :: ' ' :: p))) =
        Except.ok
          ({ s with pendingStreams := alSet sid (((alGet sid s.pendingStreams).getD []) ++ qs.flatten) s.pendingStreams },
           []) := by
  intro qs
  induction qs with
  | nil => intro s ev sid hh hne; exact absurd rfl hne
  | cons p rest ih =>
    intro s ev sid hh _ hnl hsid hlist
    have hp : '\n' ∉ p := hnl p (by simp)
    have hstep := routeChunk_nonterm s ev sid p false hsid hp
    have hre := routeEvent_sendStream s ev (sid ++ ' ' :: 'f' :: ' ' :: p) hh hlist
    cases rest with
    | nil =>
      simp only [List.map_cons, List.map_nil, routeMany, hre, hstep]
      simp
    | cons q rest2 =>
      have hrec := ih
        { s with pendingStreams := alSet sid (((alGet sid s.pendingStreams).getD []) ++ p) s.pendingStreams }
        ev sid hh (by simp) (fun x hx => hnl x (by simp [hx])) hsid hlist
      rw [List.map_cons, routeMany, hre, hstep]
      simp only [hrec]
      simp [alGet_alSet_self, alSet_alSet, List.append_assoc]

theorem framesRec_map_take (sid : List Char) (g : List Char → List Char) :
    ∀ (ps : List (List Char)) (k : Nat), k < ps.length →
      ((framesRec sid ps).map g).take k =
        (ps.take k).map (fun p => g (sid ++ ' ' :: 'f' :: ' ' :: p)) := by
  intro ps
  induction ps with
  | nil => intro k hk; simp at hk
  | cons p rest ih =>
    intro k hk
    cases k with
    | zero => simp
    | succ k2 =>
      cases rest with
      | nil => simp at hk
      | cons q rest2 =>
        have hk2 : k2 < (q :: rest2).length := by simp at hk ⊢; omega
        have := ih k2 hk2
        simp only [framesRec, List.map_cons, List.take_succ_cons, this]

/-- Claim C1: feeding the chunk frames produced by the outbound stream
splitter for an oversized serialized payload back into the Router's
routeEvent, in emission order, reconstructs exactly the serialized
payload: every non-terminal chunk only appends to the buffer keyed by
the stream id (no dispatch), and on the terminal chunk the buffer entry
is removed and the concatenated content is dispatched to the registered
listener exactly once. -/
theorem c1_stream_roundtrip (s : RouterState) (hh : Handler) (ev sid payload : List Char)
    (hlist : alGet ev s.listeners = some hh)
    (hbuf : alGet sid s.pendingStreams = none)
    (hsid : ' ' ∉ sid) (hnl : '\n' ∉ payload)
    (hbig : MAX_MESSAGE_LENGTH < payload.length) :
    routeMany s ev
        ((emitFrames sid (splitParts payload)).map (fun b => IpcTypeFlag.sendStream.toChar :: b)) =
      Except.ok (s, [RAction.dispatchSend ev payload]) ∧
    2 ≤ (splitParts payload).length ∧
    (∀ k, 0 < k → k < (splitParts payload).length →
      routeMany s ev
          (((emitFrames sid (splitParts payload)).map (fun b => IpcTypeFlag.sendStream.toChar :: b)).take k) =
        Except.ok
          ({ s with pendingStreams := alSet sid ((splitParts payload).take k).flatten s.pendingStreams },
           [])) := by
  have h393 : maxMessageLengthWithPadding < payload.length := by
    have e1 : maxMessageLengthWithPadding = 393 := rfl
    have e2 : MAX_MESSAGE_LENGTH = 428 := rfl
    omega
  have hpnl : ∀ p ∈ splitParts payload, '\n' ∉ p :=
    fun p hp hmem => hnl (splitParts_chars payload p hp '\n' hmem)
  refine ⟨?_, splitParts_two _ h393, ?_⟩
  · rw [emitFrames_eq_framesRec,
      routeMany_chunkList (splitParts payload) s ev sid hh (splitParts_ne_nil payload) hpnl hsid hlist,
      hbuf, alDel_absent sid _ hbuf]
    simp [splitParts_flatten]
  · intro k hk0 hklen
    rw [emitFrames_eq_framesRec, framesRec_map_take sid _ (splitParts payload) k hklen,
      routeMany_nonterm ((splitParts payload).take k) s ev sid hh
        (by
          have : ((splitParts payload).take k).length = k := by
            rw [List.length_take]
            omega
          intro hcon
          rw [hcon] at this
          simp at this
          omega)
        (fun x hx => hpnl x (List.take_subset _ _ hx)) hsid hlist,
      hbuf]
    simp

/-- Claim C1 witness: a concrete 429-character payload split into two
chunks and reassembled. -/
theorem c1_stream_roundtrip_witness :
    routeMany sampleRouter evA
        ((emitFrames sidR (splitParts payloadBig)).map (fun b => IpcTypeFlag.sendStream.toChar :: b)) =
      Except.ok (sampleRouter, [RAction.dispatchSend evA payloadBig]) :=
  (c1_stream_roundtrip sampleRouter handlerNull evA sidR payloadBig rfl rfl (by decide)
    (fun hmem => absurd (List.eq_of_mem_replicate hmem) (by decide))
    (by norm_num [payloadBig, MAX_MESSAGE_LENGTH])).1

/-- Claim C4: a payload whose serialized length is at most the
transport limit is sent by sendAuto as exactly one frame; a longer
payload is split into at least two chunk frames whose fragments each
fit in the limit minus the per-fragment overhead, whose concatenation
is the serialized payload, with the last fragment flagged terminal and
all others non-terminal. -/
theorem c4_sendAuto_frames (ev sid serialized : List Char) :
    (serialized.length ≤ MAX_MESSAGE_LENGTH →
      sendAutoFrames ev serialized sid = [(ev, IpcTypeFlag.send.toChar :: serialized)] ∧
      (∀ force, sendFrames ev serialized force =
        Except.ok [(ev, IpcTypeFlag.send.toChar :: serialized)])) ∧
    (MAX_MESSAGE_LENGTH < serialized.length →
      2 ≤ (splitParts serialized).length ∧
      (∀ p ∈ splitParts serialized, p.length ≤ MAX_MESSAGE_LENGTH - STREAM_MESSAGE_PADDING) ∧
      (splitParts serialized).flatten = serialized ∧
      sendAutoFrames ev serialized sid =
        ((splitParts serialized).dropLast.map
            (fun p => (ev, IpcTypeFlag.sendStream.toChar :: (sid ++ ' ' :: 'f' :: ' ' :: p)))) ++
          [(ev, IpcTypeFlag.sendStream.toChar ::
              (sid ++ ' ' :: 't' :: ' ' :: (splitParts serialized).getLastD []))]) := by
  constructor
  · intro hle
    refine ⟨by rw [sendAutoFrames, if_neg (Nat.not_lt.mpr hle)], ?_⟩
    intro force
    cases force
    · rw [sendFrames, if_neg (by simp), if_neg (Nat.not_lt.mpr hle)]
    · rw [sendFrames, if_pos rfl]
  · intro hgt
    have h393 : maxMessageLengthWithPadding < serialized.length := by
      have e1 : maxMessageLengthWithPadding = 393 := rfl
      have e2 : MAX_MESSAGE_LENGTH = 428 := rfl
      omega
    refine ⟨splitParts_two _ h393, splitParts_sizes serialized, splitParts_flatten _, ?_⟩
    rw [sendAutoFrames, if_pos hgt, sendStreamFrames, emitFrames_eq_framesRec,
      framesRec_struct sid _ (splitParts_ne_nil serialized)]
    simp [List.map_append]
    rfl

/-- Claim C4 witness: a 4-character payload yields one Send frame, and
the 429-character payload yields the two-chunk shape. -/
theorem c4_sendAuto_frames_witness :
    sendAutoFrames evA "true".data sidR = [(evA, IpcTypeFlag.send.toChar :: "true".data)] ∧
    2 ≤ (splitParts payloadBig).length :=
  ⟨((c4_sendAuto_frames evA sidR "true".data).1 (by decide)).1,
   ((c4_sendAuto_frames evA sidR payloadBig).2
      (by norm_num [payloadBig, MAX_MESSAGE_LENGTH])).1⟩

/-! ## registerListener support lemmas -/

theorem contains_colon_append (a b : List Char) : (a ++ ':' :: b).contains ':' = true := by
  induction a with
  | nil => simp
  | cons c rest ih => simp [ih]

theorem localSegment_append (a b : List Char) (h : ':' ∉ a) :
    localSegment (a ++ ':' :: b) = b.takeWhile (fun c => decide (c ≠ ':')) := by
  rw [localSegment, jsSplitAll_append a b h]
  rw [List.getD_cons_succ]
  have hne := jsSplitAll_ne_nil ':' b
  have hhead := jsSplitAll_headD ':' b
  match hm : jsSplitAll ':' b with
  | [] => exact absurd hm hne
  | seg :: segs =>
    rw [hm] at hhead
    simp only [List.headD] at hhead
    simp [hhead]

theorem startsUnderscore_takeWhile (b : List Char) :
    startsUnderscore (b.takeWhile (fun c => decide (c ≠ ':'))) = startsUnderscore b := by
  cases b with
  | nil => rfl
  | cons c rest =>
    by_cases hc : c = ':'
    · subst hc
      simp [List.takeWhile_cons, startsUnderscore]
    · simp [List.takeWhile_cons, hc, startsUnderscore]

/-- Claim C8: registerListener throws for an already-registered id, for
an id lacking the colon delimiter, and for an id whose local part after
the first colon begins with an underscore, leaving the listener map
unchanged in every throwing case; removeListener returns true exactly
when an entry existed, removes it, and returns false on an unused id
(idempotence). -/
theorem c8_register_remove (s : RouterState) (ev : List Char) (h : Handler) :
    ((alGet ev s.listeners).isSome = true →
      registerListener s ev h = (s, some RegError.duplicate)) ∧
    (ev.contains ':' = false →
      (registerListener s ev h).1 = s ∧ (registerListener s ev h).2.isSome = true) ∧
    (∀ a b, ev = a ++ ':' :: b → ':' ∉ a → startsUnderscore b = true →
      (registerListener s ev h).1 = s ∧ (registerListener s ev h).2.isSome = true) ∧
    (removeListener s ev).2 = (alGet ev s.listeners).isSome ∧
    (alGet ev s.listeners = none → removeListener s ev = (s, false)) ∧
    alGet ev ((removeListener s ev).1).listeners = none ∧
    removeListener (removeListener s ev).1 ev = ((removeListener s ev).1, false) := by
  have hdel : alGet ev ((removeListener s ev).1).listeners = none := by
    simp only [removeListener]
    exact alGet_alDel_self ev s.listeners
  refine ⟨?_, ?_, ?_, ?_, ?_, hdel, ?_⟩
  · intro hd
    rw [registerListener, if_pos hd]
  · intro hc
    by_cases hdup : (alGet ev s.listeners).isSome
    · rw [registerListener, if_pos hdup]
      exact ⟨rfl, rfl⟩
    · rw [registerListener, if_neg hdup, if_pos (by rw [hc]; rfl)]
      exact ⟨rfl, rfl⟩
  · intro a b hev ha hus
    by_cases hdup : (alGet ev s.listeners).isSome
    · rw [registerListener, if_pos hdup]
      exact ⟨rfl, rfl⟩
    · have hcond : (!ev.contains ':' || startsUnderscore (localSegment ev)) = true := by
        subst hev
        rw [localSegment_append a b ha, startsUnderscore_takeWhile, hus]
        simp
      rw [registerListener, if_neg hdup, if_pos hcond]
      exact ⟨rfl, rfl⟩
  · simp only [removeListener]
    exact alDel_snd ev s.listeners
  · intro habs
    simp only [removeListener, alDel_absent ev s.listeners habs]
  · have h2 : alDel ev (alDel ev s.listeners).1 = ((alDel ev s.listeners).1, false) :=
      alDel_absent _ _ (alGet_alDel_self ev s.listeners)
    simp only [removeListener, h2]

/-- Claim C8 witness: at a concrete router, a duplicate registration
throws, an id without a colon throws, an id with an underscored local
part throws, and removeListener returns false on an unused id. -/
theorem c8_register_remove_witness :
    registerListener sampleRouter evA handlerNull = (sampleRouter, some RegError.duplicate) ∧
    (registerListener sampleRouter "nocolon".data handlerNull).2.isSome = true ∧
    (registerListener sampleRouter "a:_x".data handlerNull).2.isSome = true ∧
    removeListener sampleRouter "c:d".data = (sampleRouter, false) := by
  refine ⟨(c8_register_remove sampleRouter evA handlerNull).1 rfl,
    ((c8_register_remove sampleRouter "nocolon".data handlerNull).2.1 (by decide)).2,
    ((c8_register_remove sampleRouter "a:_x".data handlerNull).2.2.1
      "a".data "_x".data rfl (by decide) rfl).2,
    (c8_register_remove sampleRouter "c:d".data handlerNull).2.2.2.2.1 rfl⟩

/-- Claim C10: destroy is idempotent and narrow in effect: any number
of calls never fails, isValid is false afterwards and stays false, and
the listener map, stream buffers and both uid counters are untouched. -/
theorem c10_destroy_narrow (s : RouterState) (n : Nat) :
    (destroy s).isValid = false ∧
    destroy (destroy s) = destroy s ∧
    destroy^[n + 1] s = destroy s ∧
    (destroy s).listeners = s.listeners ∧
    (destroy s).pendingStreams = s.pendingStreams ∧
    (destroy s).listenerUidsGenerated = s.listenerUidsGenerated ∧
    (destroy s).streamUidsGenerated = s.streamUidsGenerated := by
  refine ⟨rfl, rfl, ?_, rfl, rfl, rfl, rfl⟩
  induction n with
  | zero => simp
  | succ n ih =>
    rw [Function.iterate_succ_apply', ih]
    rfl

/-- Claim C3: starting from a pending invoke, if the timer fires first
the promise is rejected with the timeout and the one-shot listener is
removed; a matching response arriving afterwards leaves the state
untouched; conversely a response first settles the promise and a later
timer event is a no-op — the two outcomes are mutually exclusive and
whichever event occurs first wins. -/
theorem c3_invoke_timeout_race (tf : Bool) (v : IpcValue) :
    (invokeStep tf pendingInit PendingEvent.timerFire).settled = some Settled.timedOut ∧
    (invokeStep tf pendingInit PendingEvent.timerFire).hasListener = false ∧
    invokeStep tf (invokeStep tf pendingInit PendingEvent.timerFire) (PendingEvent.response v) =
      invokeStep tf pendingInit PendingEvent.timerFire ∧
    (invokeStep tf pendingInit (PendingEvent.response v)).settled = some (settleOutcome tf v) ∧
    invokeStep tf (invokeStep tf pendingInit (PendingEvent.response v)) PendingEvent.timerFire =
      invokeStep tf pendingInit (PendingEvent.response v) :=
  ⟨rfl, rfl, rfl, rfl, rfl⟩

/-! ## Stream invoke timer order -/

theorem foldl_sendChunks (tf : Bool) (s0 : StreamPendingState) :
    ∀ cs : List (List Char), (cs.map StreamEvent.sendChunk).foldl (streamStep tf) s0 = s0 := by
  intro cs
  induction cs generalizing s0 with
  | nil => rfl
  | cons c rest ih => simp only [List.map_cons, List.foldl_cons, streamStep, ih]

theorem progEvents_take (chunks : List (List Char)) (k : Nat) (hk : k ≤ chunks.length) :
    (streamProgEvents chunks).take k = (chunks.take k).map StreamEvent.sendChunk := by
  rw [streamProgEvents, List.take_append_eq_append_take]
  have hlen : k - (chunks.map StreamEvent.sendChunk).length = 0 := by
    simp only [List.length_map]
    omega
  rw [hlen]
  simp [List.map_take]

/-- Claim C9: in invokeStream the response timer is armed only after
the last outbound chunk: after any prefix of the transmission the timer
is unarmed (so a timer-fire event during transmission is impossible),
it is armed exactly by the final step, and a response arriving before
the timer is armed still settles the promise with its value — the
timer armed afterwards and then firing does not alter the settled
result. -/
theorem c9_stream_timer_order (tf : Bool) (v : IpcValue) (chunks : List (List Char)) (k : Nat)
    (hk : k ≤ chunks.length) :
    (((streamProgEvents chunks).take k).foldl (streamStep tf) streamPendingInit).timerArmed = false ∧
    ((streamProgEvents chunks).foldl (streamStep tf) streamPendingInit).timerArmed = true ∧
    (streamStep tf ((chunks.map StreamEvent.sendChunk).foldl (streamStep tf) streamPendingInit)
        (StreamEvent.response v)).settled = some (settleOutcome tf v) ∧
    (streamStep tf
        (streamStep tf
          (streamStep tf ((chunks.map StreamEvent.sendChunk).foldl (streamStep tf) streamPendingInit)
            (StreamEvent.response v))
          StreamEvent.armTimer)
        StreamEvent.timerFire).settled = some (settleOutcome tf v) := by
  rw [progEvents_take chunks k hk, foldl_sendChunks tf streamPendingInit,
    foldl_sendChunks tf streamPendingInit, streamProgEvents, List.foldl_append,
    foldl_sendChunks tf streamPendingInit]
  exact ⟨rfl, rfl, rfl, rfl⟩

/-- Claim C9 witness: one concrete chunk, prefix length one. -/
theorem c9_stream_timer_order_witness :
    (((streamProgEvents ["ab".data]).take 1).foldl (streamStep true) streamPendingInit).timerArmed =
      false :=
  (c9_stream_timer_order true (IpcValue.val JValue.null) ["ab".data] 1 (by decide)).1

/-- Claim C2: for a well-formed inbound Invoke frame (parsable payload)
dispatched to a handler, exactly one response is sent to the response
event id: the handler's return value (envelope-encoded when it is a
Failure) on normal return, and a null payload plus a logged warning
when the handler throws — one shared dispatch path for synchronous and
suspending handlers. -/
theorem c2_exactly_one_response (de : List Char → Option JValue) (h : Handler)
    (respEv raw : List Char) (v : JValue) (hde : de raw = some v) :
    (invokeListenerModel de h respEv (some raw)).sent.length = 1 ∧
    (∀ r, h (interpretParsed v) = HandlerResult.ok r →
      invokeListenerModel de h respEv (some raw) =
        { sent := [(respEv, encodeResponse r)], warned := false }) ∧
    (h (interpretParsed v) = HandlerResult.thrown →
      invokeListenerModel de h respEv (some raw) =
        { sent := [(respEv, JValue.null)], warned := true }) := by
  have hp : parseRawPayload de (some raw) = some (interpretParsed v) := by
    simp [parseRawPayload, hde]
  refine ⟨?_, ?_, ?_⟩
  · simp only [invokeListenerModel, hp]
    cases h (interpretParsed v) <;> simp
  · intro r hr
    simp only [invokeListenerModel, hp, hr]
  · intro hr
    simp only [invokeListenerModel, hp, hr]

/-- Claim C2 witness: a throwing handler still produces exactly one
response, a null payload, with the error logged. -/
theorem c2_exactly_one_response_witness :
    invokeListenerModel deW handlerThrow evA (some "R".data) =
      { sent := [(evA, JValue.null)], warned := true } :=
  (c2_exactly_one_response deW handlerThrow evA "R".data JValue.null rfl).2.2 rfl

/-- Claim C5: a handler returning Failure(m) causes the response to be
enveloped under the reserved key; on receipt the enveloped payload is
reinterpreted as a Failure wrapping m; the caller's pending invoke then
resolves with that Failure when throwFailures is false and rejects with
it when throwFailures is true. -/
theorem c5_failure_envelope (ser : JValue → List Char) (de : List Char → Option JValue)
    (h : Handler) (respEv raw : List Char) (v m : JValue)
    (hde : de raw = some v)
    (hh : h (interpretParsed v) = HandlerResult.ok (IpcValue.failure m))
    (hrt : de (ser (JValue.obj [(FAILURE_KEY, m)])) = some (JValue.obj [(FAILURE_KEY, m)])) :
    (invokeListenerModel de h respEv (some raw)).sent =
      [(respEv, JValue.obj [(FAILURE_KEY, m)])] ∧
    parseRawPayload de (some (ser (JValue.obj [(FAILURE_KEY, m)]))) =
      some (IpcValue.failure m) ∧
    (invokeStep false pendingInit (PendingEvent.response (IpcValue.failure m))).settled =
      some (Settled.resolved (IpcValue.failure m)) ∧
    (invokeStep true pendingInit (PendingEvent.response (IpcValue.failure m))).settled =
      some (Settled.rejectedFailure m) := by
  have hp : parseRawPayload de (some raw) = some (interpretParsed v) := by
    simp [parseRawPayload, hde]
  refine ⟨?_, ?_, rfl, rfl⟩
  · simp only [invokeListenerModel, hp, hh, encodeResponse]
  · simp only [parseRawPayload, hrt, Option.map_some]
    simp [interpretParsed, alGet]

/-- Claim C5 witness: the concrete Failure("x") round trip. -/
theorem c5_failure_envelope_witness :
    (invokeListenerModel deW handlerFailX evA (some "R".data)).sent =
      [(evA, JValue.obj [(FAILURE_KEY, JValue.str "x".data)])] :=
  (c5_failure_envelope serW deW handlerFailX evA "R".data JValue.null (JValue.str "x".data)
    rfl rfl rfl).1

/-- Claim C7: Invoke and stream-chunk bodies are split at the first
space only: the response event id is the text before the first space
and the payload is the entire remainder, so a payload containing
spaces reaches the handler intact; a chunk body is likewise split at
its first space, the fragment (spaces included) surviving intact. -/
theorem c7_first_space_only (s : RouterState) (hh : Handler)
    (id respEv payload sid frag : List Char)
    (hlist : alGet id s.listeners = some hh)
    (hre : ' ' ∉ respEv) (hpl : '\n' ∉ payload)
    (hsid : ' ' ∉ sid) (hfr : '\n' ∉ frag) :
    routeEvent s id (IpcTypeFlag.invoke.toChar :: (respEv ++ ' ' :: payload)) =
      Except.ok (s, [RAction.dispatchInvoke id respEv (some payload)]) ∧
    routeEvent s id (IpcTypeFlag.sendStream.toChar :: (sid ++ ' ' :: 'f' :: ' ' :: frag)) =
      Except.ok
        ({ s with pendingStreams := alSet sid (((alGet sid s.pendingStreams).getD []) ++ frag) s.pendingStreams },
         []) := by
  constructor
  · rw [routeEvent_invoke s id _ hh hlist]
    simp [jsSplitFirst_split respEv payload hre, takeUntilNL_all payload hpl]
  · rw [routeEvent_sendStream s id _ hh hlist, routeChunk_nonterm s id sid frag false hsid hfr]

/-- Claim C7 witness: the payload "x y z" (containing spaces) is passed
to the handler intact. -/
theorem c7_first_space_only_witness :
    routeEvent sampleRouter evA (IpcTypeFlag.invoke.toChar :: ("n:r".data ++ ' ' :: "x y z".data)) =
      Except.ok (sampleRouter, [RAction.dispatchInvoke evA "n:r".data (some "x y z".data)]) :=
  (c7_first_space_only sampleRouter handlerNull evA "n:r".data "x y z".data sidR "q".data
    rfl (by decide) (by decide) (by decide) (by decide)).1

/-- Claim C6 counterexample: a SendStream frame whose chunk body
contains no space at all (missing the terminal flag and fragment
fields) is routed to a registered listener and a synchronous error
escapes routeEvent — the frame is not dropped without raising. -/
theorem c6_counterexample :
    routeEvent sampleRouter evA (IpcTypeFlag.sendStream.toChar :: "abc".data) =
      Except.error () := rfl

/-- Claim C6 as amended: an inbound frame for a registered listener
with an unrecognized type flag, an empty body, a Send or Invoke body
(even an unparsable one — the parse failure happens in the
asynchronous listener call and nothing escapes routeEvent), or a chunk
body containing at least one space is handled without any error
escaping routeEvent and without altering the listener map; but a chunk
body with no space at all raises a synchronous TypeError out of
routeEvent, and a chunk body missing only the fragment field is not
dropped: the literal text undefined is appended to the stream buffer. -/
theorem c6_amended_malformed_frames (s : RouterState) (id msg : List Char) (c : Char)
    (hh : Handler) (hlist : alGet id s.listeners = some hh) :
    (charToFlag c = none → routeEvent s id (c :: msg) = Except.ok (s, [])) ∧
    routeEvent s id [] = Except.ok (s, []) ∧
    (∃ acts, routeEvent s id (IpcTypeFlag.invoke.toChar :: msg) = Except.ok (s, acts)) ∧
    routeEvent s id (IpcTypeFlag.send.toChar :: msg) =
      Except.ok (s, [RAction.dispatchSend id msg]) ∧
    ((jsSplitFirst msg).2 = none →
      routeEvent s id (IpcTypeFlag.sendStream.toChar :: msg) = Except.error () ∧
      routeEvent s id (IpcTypeFlag.invokeStream.toChar :: msg) = Except.error ()) ∧
    (∀ afterId, (jsSplitFirst msg).2 = some afterId →
      ∃ s2 acts, routeEvent s id (IpcTypeFlag.sendStream.toChar :: msg) = Except.ok (s2, acts) ∧
        s2.listeners = s.listeners) ∧
    (∀ sid, ' ' ∉ sid →
      routeEvent s id (IpcTypeFlag.sendStream.toChar :: (sid ++ [' ', 'f'])) =
        Except.ok
          ({ s with pendingStreams := alSet sid (((alGet sid s.pendingStreams).getD []) ++ "undefined".data) s.pendingStreams },
           [])) := by
  refine ⟨?_, ?_, ?_, ?_, ?_, ?_, ?_⟩
  · intro hflag
    simp only [routeEvent, hlist, hflag]
  · simp only [routeEvent, hlist]
  · rw [routeEvent_invoke s id msg hh hlist]
    exact ⟨_, rfl⟩
  · exact routeEvent_send s id msg hh hlist
  · intro hnone
    rw [routeEvent_sendStream s id msg hh hlist, routeEvent_invokeStream s id msg hh hlist]
    match hsp : jsSplitFirst msg with
    | (a, bo) =>
      rw [hsp] at hnone
      simp only at hnone
      subst hnone
      constructor <;> simp [routeChunk, hsp]
  · intro afterId hsome
    rw [routeEvent_sendStream s id msg hh hlist]
    match hsp : jsSplitFirst msg with
    | (a, bo) =>
      rw [hsp] at hsome
      simp only at hsome
      subst hsome
      simp only [routeChunk, hsp]
      match hsp2 : jsSplitFirst afterId with
      | (isEndRaw, contentOpt) =>
        by_cases hend : isEndRaw = ['t']
        · rw [if_pos hend]
          exact ⟨_, _, rfl, rfl⟩
        · rw [if_neg hend]
          exact ⟨_, _, rfl, rfl⟩
  · intro sid hsid
    have e1 : takeUntilNL ['f'] = ['f'] := rfl
    have e2 : jsSplitFirst ['f'] = (['f'], none) := rfl
    rw [routeEvent_sendStream s id _ hh hlist]
    have hs := jsSplitFirst_split sid ['f'] hsid
    rw [e1] at hs
    simp only [routeChunk, hs, e2]
    simp

/-- Claim C6 amended witness: the missing-fragment chunk at a concrete
router appends the literal text undefined to the stream buffer. -/
theorem c6_amended_malformed_frames_witness :
    routeEvent sampleRouter evA (IpcTypeFlag.sendStream.toChar :: (sidR ++ [' ', 'f'])) =
      Except.ok
        ({ sampleRouter with pendingStreams := alSet sidR (((alGet sidR sampleRouter.pendingStreams).getD []) ++ "undefined".data) sampleRouter.pendingStreams },
         []) :=
  (c6_amended_malformed_frames sampleRouter evA "abc".data 'z' handlerNull rfl).2.2.2.2.2.2
    sidR (by decide)
